import Mathlib

/-!
# Verification of the natedns DNS wire-format codec

Shallow embedding of the `internal/dns` package of justnat3/natedns
(the current snapshot of the package: `NewHeader`, `header.Write`,
`readQName`, `writeQName`, `newQuestion`, `question.Write`,
`newResourceRecord`, `resourceRecord.Write`, `NewMessage`,
`Message.Write`).

Conventions of the embedding:
* A Go `[]byte` is a `List Nat` whose entries are byte values (< 256).
* Go strings are lists of runes (`List Nat`); for the ASCII inputs the
  claims quantify over, runes and bytes coincide.
* A Go panic (an explicit `panic(...)` call or a runtime slice
  out-of-range abort) is modelled as an `Except.error` result:
  `DnsError.invalidQNameLength` for `panic(ErrorInvalidQNameLength)` and
  `DnsError.outOfRange` for a slice/index bounds abort.  The constructor
  `DnsError.bufferTooShort` is the error named by the spec; the code
  never produces it, it exists so that statements about it can be made.
* Machine integers are `Nat` with explicit `% 256` / masking exactly
  where Go performs a `uint8(...)` conversion that can truncate.
-/

/-- Byte buffers: Go `[]byte`. -/
abbrev Bytes := List Nat

/-- Errors / aborts of the codec.  `bufferTooShort` is the error named by
the spec; the Go code never constructs such a value. -/
inductive DnsError where
  | outOfRange
  | invalidQNameLength
  | bufferTooShort
  deriving DecidableEq, Repr

deriving instance DecidableEq for Except

/-- `read16`: `binary.BigEndian.Uint16(b[0:2]), b[2:]`.  Indexing `b[0:2]`
aborts (slice out of range) when fewer than two bytes remain. -/
def read16 (b : Bytes) : Except DnsError (Nat × Bytes) :=
  match b with
  | b0 :: b1 :: rest => .ok (b0 * 256 + b1, rest)
  | _ => .error .outOfRange

/-- `read32`: `binary.BigEndian.Uint32(b[0:4]), b[4:]`. -/
def read32 (b : Bytes) : Except DnsError (Nat × Bytes) :=
  match b with
  | b0 :: b1 :: b2 :: b3 :: rest =>
      .ok (b0 * 16777216 + b1 * 65536 + b2 * 256 + b3, rest)
  | _ => .error .outOfRange

/-- The `header` struct (12-byte DNS header): `id` is `uint16`, the flag
fields and `rcode` are `uint8`, the four counts are `uint16`. -/
structure header where
  id : Nat
  qr : Nat
  opcode : Nat
  aa : Nat
  tc : Nat
  rd : Nat
  ra : Nat
  z : Nat
  rcode : Nat
  questions : Nat
  answers : Nat
  authorities : Nat
  additionals : Nat
  deriving DecidableEq, Repr

/-- `NewHeader`: reads `id`, the 16-bit flag word `qinfo`, and the four
counts with `read16`, extracting the flag fields with the masks
`QrMask = 0x8000`, `OPCodeMask = 0x7800`, `AAMask = 0x0400`,
`TCMask = 0x0200`, `RDMask = 0x0100`, `RAMask = 0x0080`,
`ZMask = 0x0040`, `RCodeMask = 0x003F`. -/
def NewHeader (b : Bytes) : Except DnsError (header × Bytes) :=
  match read16 b with
  | .error e => .error e
  | .ok (id, b) =>
    match read16 b with
    | .error e => .error e
    | .ok (qinfo, b) =>
      let qr := (qinfo &&& 0x8000) >>> 15
      let aa := (qinfo &&& 0x0400) >>> 10
      let tc := (qinfo &&& 0x0200) >>> 9
      let rd := (qinfo &&& 0x0100) >>> 8
      let ra := (qinfo &&& 0x0080) >>> 7
      let z := (qinfo &&& 0x0040) >>> 6
      let rcode := qinfo &&& 0x003F
      let opcode := (qinfo &&& 0x7800) >>> 11
      match read16 b with
      | .error e => .error e
      | .ok (questions, b) =>
        match read16 b with
        | .error e => .error e
        | .ok (answers, b) =>
          match read16 b with
          | .error e => .error e
          | .ok (authorities, b) =>
            match read16 b with
            | .error e => .error e
            | .ok (additionals, b) =>
              .ok ({ id := id, qr := qr, opcode := opcode, aa := aa,
                     tc := tc, rd := rd, ra := ra, z := z, rcode := rcode,
                     questions := questions, answers := answers,
                     authorities := authorities,
                     additionals := additionals }, b)

/-- `header.Write`: the 12 literal bytes of the Go source.  Byte 2 is
`hdr.rd | hdr.tc<<1 | hdr.aa<<2 | hdr.opcode<<3 | hdr.ra<<7` in `uint8`
arithmetic (each shift truncates to 8 bits); byte 3 is `hdr.rcode`.
Neither `hdr.qr` nor `hdr.z` occurs in the function body. -/
def header.Write (hdr : header) : Bytes :=
  [ (hdr.id >>> 8) % 256,
    hdr.id &&& 0xff,
    hdr.rd ||| ((hdr.tc <<< 1) % 256) ||| ((hdr.aa <<< 2) % 256)
      ||| ((hdr.opcode <<< 3) % 256) ||| ((hdr.ra <<< 7) % 256),
    hdr.rcode,
    (hdr.questions >>> 8) % 256,
    hdr.questions &&& 0xff,
    (hdr.answers >>> 8) % 256,
    hdr.answers &&& 0xff,
    (hdr.authorities >>> 8) % 256,
    hdr.authorities &&& 0xff,
    (hdr.additionals >>> 8) % 256,
    hdr.additionals &&& 0xff ]

/-! ## Name codec: `writeQName` / `readQName` -/

/-- `strings.Split(qname, ".")`: split a rune list on `'.'` (rune 46);
`n` separators yield `n + 1` (possibly empty) pieces. -/
def splitOnDot : List Nat → List (List Nat)
  | [] => [[]]
  | c :: rest =>
    if c = 46 then [] :: splitOnDot rest
    else
      match splitOnDot rest with
      | [] => [[c]]
      | p :: ps => (c :: p) :: ps

/-- Go `len(label)` of a string: the UTF-8 byte length of one rune. -/
def goUtf8Len (c : Nat) : Nat :=
  if c < 0x80 then 1 else if c < 0x800 then 2 else if c < 0x10000 then 3 else 4

/-- Go `len(label)`: UTF-8 byte length of the label. -/
def labelByteLen (l : List Nat) : Nat :=
  (l.map goUtf8Len).sum

/-- The per-label loop of `writeQName`: for each label emit `uint8(len(label))`
followed by `uint8(by)` for each rune `by`; `return nil` (here `none`)
as soon as a label has `len(label) > 0x3f`. -/
def writeQNameLabels : List (List Nat) → Option Bytes
  | [] => some []
  | label :: rest =>
    if 63 < labelByteLen label then none
    else
      match writeQNameLabels rest with
      | none => none
      | some bs => some ((labelByteLen label % 256) :: (label.map (· % 256) ++ bs))

/-- `writeQName`: split on `.`, emit the length-prefixed labels, then append
the terminating zero byte.  On an over-long label Go returns `nil` (no
terminator, no error): modelled as the empty buffer. -/
def writeQName (qname : List Nat) : Bytes :=
  match writeQNameLabels (splitOnDot qname) with
  | none => []
  | some bs => bs ++ [0]

/-- The `for` loop of `readQName`, acting on the suffix `buff[pos:]` of the
buffer together with the running `labelLen` and the accumulated string.
Indexing `buff[pos]` past the end aborts (`outOfRange`).  A zero byte at
the cursor breaks the loop, returning `buff[pos:]` (the zero byte is NOT
consumed).  When `labelLen` is `0` the byte at the cursor is taken as the
next label length, a `'.'` (46) is appended, and the following byte is
appended as a character. -/
def readQNameLoop : Bytes → Nat → List Nat → Except DnsError (List Nat × Bytes)
  | [], _, _ => .error .outOfRange
  | c :: s, labelLen, str =>
    if c = 0 then .ok (str, c :: s)
    else if labelLen = 0 then
      match s with
      | [] => .error .outOfRange
      | d :: s2 => readQNameLoop s2 (c - 1) (str ++ [46, d])
    else readQNameLoop s (labelLen - 1) (str ++ [c])

/-- `readQName`: take `buff[0]` as the initial label length (abort when the
buffer is empty), `panic(ErrorInvalidQNameLength)` when it exceeds 63 or
when the rest of the buffer is empty, run the loop, and
`panic(ErrorInvalidQNameLength)` when the decoded string is empty. -/
def readQName (buff : Bytes) : Except DnsError (List Nat × Bytes) :=
  match buff with
  | [] => .error .outOfRange
  | labelLen :: buff =>
    if 63 < labelLen then .error .invalidQNameLength
    else if buff.length < 1 then .error .invalidQNameLength
    else
      match readQNameLoop buff labelLen [] with
      | .error e => .error e
      | .ok (str, rem) =>
        if str.length < 1 then .error .invalidQNameLength
        else .ok (str, rem)

/-! ## Question codec -/

/-- The `question` struct. -/
structure question where
  qname : List Nat
  qtype : Nat
  qclass : Nat
  deriving DecidableEq, Repr

/-- `newQuestion`: decode the name, print `b[0]` (an index that aborts on an
empty buffer), then `q.qtype, b = read16(b[12:])` — the slice `b[12:]`
skips twelve bytes of the remainder (and aborts when fewer than twelve
bytes remain) — and `q.qclass, b = read16(b)`. -/
def newQuestion (b : Bytes) : Except DnsError (question × Bytes) :=
  match readQName b with
  | .error e => .error e
  | .ok (qname, b) =>
    if b.length < 1 then .error .outOfRange
    else if b.length < 12 then .error .outOfRange
    else
      match read16 (b.drop 12) with
      | .error e => .error e
      | .ok (qtype, b) =>
        match read16 b with
        | .error e => .error e
        | .ok (qclass, b) =>
          .ok ({ qname := qname, qtype := qtype, qclass := qclass }, b)

/-- `question.Write`: the Go function assembles the name and the qtype /
qclass bytes into a local buffer and then executes `return nil` — every
call returns the empty byte slice. -/
def question.Write (q : question) : Bytes :=
  let qname := writeQName q.qname
  let buff : Bytes := [] ++ qname
  let s : Bytes := [(q.qtype >>> 8) % 256, q.qtype &&& 0xff,
                    (q.qclass >>> 8) % 256, q.qclass &&& 0xff]
  let _buff : Bytes := buff ++ s
  []

/-! ## Resource-record codec -/

/-- The `resourceRecord` struct (`rclass` embeds the Go field `class`,
which is a reserved word here; `length` is the Go field `length`). -/
structure resourceRecord where
  name : List Nat
  rtype : Nat
  rclass : Nat
  ttl : Nat
  length : Nat
  rdata : Nat
  deriving DecidableEq, Repr

/-- `newResourceRecord`: reads `rtype`, `class`, `ttl`, `length`, `rdata`
with `read16`/`read32`; the `name` field keeps the Go zero value `""`. -/
def newResourceRecord (b : Bytes) : Except DnsError (resourceRecord × Bytes) :=
  match read16 b with
  | .error e => .error e
  | .ok (rtype, b) =>
    match read16 b with
    | .error e => .error e
    | .ok (rclass, b) =>
      match read32 b with
      | .error e => .error e
      | .ok (ttl, b) =>
        match read16 b with
        | .error e => .error e
        | .ok (length, b) =>
          match read32 b with
          | .error e => .error e
          | .ok (rdata, b) =>
            .ok ({ name := [], rtype := rtype, rclass := rclass,
                   ttl := ttl, length := length, rdata := rdata }, b)

/-- `resourceRecord.Write`: `bb` is the encoded name, `r` the fourteen
fixed-field bytes; the function executes `r = append(r, bb...)` and
returns `r` — the name bytes come AFTER the fixed fields. -/
def resourceRecord.Write (rr : resourceRecord) : Bytes :=
  let bb := writeQName rr.name
  let r : Bytes :=
    [ (rr.rtype >>> 8) % 256,
      rr.rtype &&& 0xff,
      (rr.rclass >>> 8) % 256,
      rr.rclass &&& 0xff,
      ((rr.ttl >>> 24) &&& 0xff),
      ((rr.ttl >>> 16) &&& 0xff),
      ((rr.ttl >>> 8) &&& 0xff),
      ((rr.ttl >>> 0) &&& 0xff),
      (rr.length >>> 8) % 256,
      rr.length &&& 0xff,
      ((rr.rdata >>> 24) &&& 0xff),
      ((rr.rdata >>> 16) &&& 0xff),
      ((rr.rdata >>> 8) &&& 0xff),
      ((rr.rdata >>> 0) &&& 0xff) ]
  r ++ bb

/-! ## Message assembler -/

/-- The `Message` struct. -/
structure Message where
  hdr : header
  q : question
  rr : resourceRecord
  deriving DecidableEq, Repr

/-- `NewMessage`: header, then question, then resource record over the
successive remainders; finally `rr.name = q.qname`. -/
def NewMessage (b : Bytes) : Except DnsError Message :=
  match NewHeader b with
  | .error e => .error e
  | .ok (hdr, b) =>
    match newQuestion b with
    | .error e => .error e
    | .ok (q, b) =>
      match newResourceRecord b with
      | .error e => .error e
      | .ok (rr, _) =>
        .ok { hdr := hdr, q := q, rr := { rr with name := q.qname } }

/-- `Message.Write`: header bytes, then question bytes, then resource
record bytes. -/
def Message.Write (m : Message) : Bytes :=
  m.hdr.Write ++ m.q.Write ++ m.rr.Write

/-! ## Spec-side notions used to state the name round-trip

`dotted labels` is the dotted textual form of a label sequence and
`encLabels labels` its length-prefixed wire form (without the final zero
byte); both are spec vocabulary, stated here so the round-trip theorems
can quantify over label sequences. -/

/-- Tail of a dotted name: `.l1.l2...ln`. -/
def dotTail : List (List Nat) → List Nat
  | [] => []
  | l :: ls => 46 :: (l ++ dotTail ls)

/-- Dotted name `l0.l1...ln` of a non-empty label sequence. -/
def dotted : List (List Nat) → List Nat
  | [] => []
  | l :: ls => l ++ dotTail ls

/-- Length-prefixed wire form of a label sequence (without terminator). -/
def encLabels : List (List Nat) → Bytes
  | [] => []
  | l :: ls => l.length :: (l ++ encLabels ls)

/-! ## Helper lemmas for the name codec -/

theorem splitOnDot_no_dot (l : List Nat) (h : ∀ c ∈ l, c ≠ 46) :
    splitOnDot l = [l] := by
  induction l with
  | nil => rfl
  | cons c t ih =>
    have hc : c ≠ 46 := h c (by simp)
    have ht := ih (fun x hx => h x (by simp [hx]))
    simp [splitOnDot, hc, ht]

theorem splitOnDot_append_dot (l : List Nat) (rest : List Nat)
    (h : ∀ c ∈ l, c ≠ 46) :
    splitOnDot (l ++ 46 :: rest) = l :: splitOnDot rest := by
  induction l with
  | nil => simp [splitOnDot]
  | cons c t ih =>
    have hc : c ≠ 46 := h c (by simp)
    have ht := ih (fun x hx => h x (by simp [hx]))
    simp [splitOnDot, hc, ht]

theorem splitOnDot_dotted :
    ∀ ls : List (List Nat), ls ≠ [] → (∀ l ∈ ls, ∀ c ∈ l, c ≠ 46) →
      splitOnDot (dotted ls) = ls
  | [], h, _ => absurd rfl h
  | [l], _, hw => by
      simp [dotted, dotTail, splitOnDot_no_dot l (hw l (by simp))]
  | l :: m :: ls, _, hw => by
      have hstep : dotted (l :: m :: ls) = l ++ 46 :: dotted (m :: ls) := by
        simp [dotted, dotTail]
      rw [hstep, splitOnDot_append_dot l _ (hw l (by simp)),
        splitOnDot_dotted (m :: ls) (by simp)
          (fun x hx => hw x (List.mem_cons_of_mem _ hx))]

theorem labelByteLen_ascii (l : List Nat) (h : ∀ c ∈ l, c < 128) :
    labelByteLen l = l.length := by
  induction l with
  | nil => rfl
  | cons c t ih =>
    have hc : c < 128 := h c (by simp)
    have ht := ih (fun x hx => h x (by simp [hx]))
    simp [labelByteLen, goUtf8Len, hc] at ht ⊢
    omega

theorem map_mod_ascii (l : List Nat) (h : ∀ c ∈ l, c < 128) :
    l.map (· % 256) = l := by
  induction l with
  | nil => rfl
  | cons c t ih =>
    have hc : c < 128 := h c (by simp)
    have ht := ih (fun x hx => h x (by simp [hx]))
    simp [ht, Nat.mod_eq_of_lt (by omega : c < 256)]

theorem writeQNameLabels_wf (ls : List (List Nat))
    (h : ∀ l ∈ ls, l.length ≤ 63 ∧ ∀ c ∈ l, c < 128) :
    writeQNameLabels ls = some (encLabels ls) := by
  induction ls with
  | nil => rfl
  | cons l t ih =>
    obtain ⟨hlen, hch⟩ := h l (by simp)
    have hbl : labelByteLen l = l.length := labelByteLen_ascii l hch
    have hnotlong : ¬ 63 < labelByteLen l := by omega
    have ht := ih (fun x hx => h x (by simp [hx]))
    simp [writeQNameLabels, hnotlong, ht, encLabels, hbl,
      Nat.mod_eq_of_lt (by omega : l.length < 256), map_mod_ascii l hch]
    omega

theorem writeQName_dotted (ls : List (List Nat)) (hne : ls ≠ [])
    (h : ∀ l ∈ ls, l.length ≤ 63 ∧ ∀ c ∈ l, c < 128 ∧ c ≠ 46) :
    writeQName (dotted ls) = encLabels ls ++ [0] := by
  have hsplit := splitOnDot_dotted ls hne (fun l hl c hc => ((h l hl).2 c hc).2)
  have hlabels := writeQNameLabels_wf ls
    (fun l hl => ⟨(h l hl).1, fun c hc => ((h l hl).2 c hc).1⟩)
  simp [writeQName, hsplit, hlabels]

theorem readQNameLoop_consume :
    ∀ (l : List Nat) (X : Bytes) (acc : List Nat), (∀ c ∈ l, c ≠ 0) →
      readQNameLoop (l ++ X) l.length acc = readQNameLoop X 0 (acc ++ l)
  | [], X, acc, _ => by simp [readQNameLoop]
  | c :: t, X, acc, h => by
      have hc : c ≠ 0 := h c (by simp)
      have ht := readQNameLoop_consume t X (acc ++ [c])
        (fun x hx => h x (by simp [hx]))
      simp only [List.cons_append, List.length_cons]
      rw [readQNameLoop.eq_def]
      simp [hc, ht]

theorem readQNameLoop_encLabels :
    ∀ (ls : List (List Nat)) (acc : List Nat),
      (∀ l ∈ ls, l ≠ [] ∧ ∀ c ∈ l, c ≠ 0) →
      readQNameLoop (encLabels ls ++ [0]) 0 acc = .ok (acc ++ dotTail ls, [0])
  | [], acc, _ => by simp [encLabels, readQNameLoop, dotTail]
  | m :: ls, acc, h => by
      obtain ⟨hm, hmc⟩ := h m (by simp)
      obtain ⟨d, t, rfl⟩ : ∃ d t, m = d :: t := by
        cases m with
        | nil => exact absurd rfl hm
        | cons d t => exact ⟨d, t, rfl⟩
      have hd : d ≠ 0 := hmc d (by simp)
      have htc : ∀ c ∈ t, c ≠ 0 := fun x hx => hmc x (by simp [hx])
      have hcons := readQNameLoop_consume t (encLabels ls ++ [0])
        (acc ++ [46, d]) htc
      have hrest := readQNameLoop_encLabels ls (acc ++ [46, d] ++ t)
        (fun x hx => h x (List.mem_cons_of_mem _ hx))
      simp only [List.append_assoc, List.cons_append, List.nil_append]
        at hcons hrest
      simp only [encLabels, List.cons_append, List.append_assoc,
        List.nil_append]
      rw [readQNameLoop.eq_def]
      simp [hcons, hrest, dotTail]

/-! ## Claims -/

/-- C1: the spec's end-to-end test input — header
`00 01 01 00 00 01 00 00 00 00 00 00`, the encoded name `example.com`,
qtype 1, qclass 1 and a 14-byte resource-record tail — does NOT decode:
`NewMessage` aborts with a slice out-of-range panic while reading the
resource record, because `newQuestion` reads qtype from `b[12:]`, eleven
bytes past the name terminator, leaving only three bytes for the
fourteen-byte record.  Encoding could not reproduce the bytes either,
since `question.Write` returns nil.  Decode-then-encode does not
reproduce the input; the input does not even decode. -/
theorem c1_decodeMessage_aborts_on_spec_input :
    NewMessage ([0x00, 0x01, 0x01, 0x00, 0x00, 0x01, 0x00, 0x00,
                 0x00, 0x00, 0x00, 0x00] ++
                [7, 101, 120, 97, 109, 112, 108, 101, 3, 99, 111, 109, 0] ++
                [0, 1] ++ [0, 1] ++ List.replicate 14 0) =
      .error .outOfRange := rfl

/-- C2: `header.Write` always yields 12 bytes, but decode is NOT the
bitwise inverse of encode: the header with qr = 1 and every other field
zero encodes to the same 12 zero bytes as the all-zero header, and
decoding them returns the all-zero header — `hdr.qr` and `hdr.z` are
never written and `hdr.ra` is written into the qr bit. -/
theorem c2_encodeHeader_drops_qr :
    (∀ h : header, (header.Write h).length = 12) ∧
    header.Write ⟨0, 1, 0, 0, 0, 0, 0, 0, 0, 0, 0, 0, 0⟩ =
      List.replicate 12 0 ∧
    NewHeader (List.replicate 12 0) =
      .ok (⟨0, 0, 0, 0, 0, 0, 0, 0, 0, 0, 0, 0, 0⟩, []) ∧
    (⟨0, 0, 0, 0, 0, 0, 0, 0, 0, 0, 0, 0, 0⟩ : header) ≠
      ⟨0, 1, 0, 0, 0, 0, 0, 0, 0, 0, 0, 0, 0⟩ :=
  ⟨fun _ => rfl, rfl, rfl, by decide⟩

/-- C3 counterexample: decoding the encoding of the single-label name
`com` does not return an empty remainder — the terminating zero byte is
left unread. -/
theorem c3_counterexample :
    readQName (writeQName [99, 111, 109]) ≠
      .ok ([99, 111, 109], ([] : Bytes)) := by decide

/-- C3 amended: for every dotted name made of labels of 1–63 ASCII
characters (no NUL, no `.`), `readQName (writeQName n)` returns the name
unchanged together with a ONE-BYTE remainder holding the terminating
zero byte: the decoder reconstructs the labels with `.` separators in
encounter order but breaks on the zero byte without consuming it. -/
theorem c3_name_roundtrip_amended (labels : List (List Nat))
    (hne : labels ≠ [])
    (hwf : ∀ l ∈ labels, l ≠ [] ∧ l.length ≤ 63 ∧
      ∀ c ∈ l, 0 < c ∧ c < 128 ∧ c ≠ 46) :
    readQName (writeQName (dotted labels)) = .ok (dotted labels, [0]) := by
  obtain ⟨l, ls, rfl⟩ : ∃ l ls, labels = l :: ls := by
    cases labels with
    | nil => exact absurd rfl hne
    | cons l ls => exact ⟨l, ls, rfl⟩
  obtain ⟨hlne, hllen, hlch⟩ := hwf l (by simp)
  rw [writeQName_dotted _ hne (fun x hx =>
    ⟨(hwf x hx).2.1, fun c hc =>
      ⟨((hwf x hx).2.2 c hc).2.1, ((hwf x hx).2.2 c hc).2.2⟩⟩)]
  have hcons := readQNameLoop_consume l (encLabels ls ++ [0]) []
    (fun c hc => by have := (hlch c hc).1; omega)
  have hrest := readQNameLoop_encLabels ls l
    (fun x hx =>
      ⟨(hwf x (List.mem_cons_of_mem _ hx)).1,
       fun c hc => by
         have := ((hwf x (List.mem_cons_of_mem _ hx)).2.2 c hc).1; omega⟩)
  simp only [List.nil_append] at hcons
  simp only [encLabels, List.cons_append, List.append_assoc, List.nil_append]
  rw [readQName.eq_def]
  have h63 : ¬ 63 < l.length := by omega
  have hstrlen : ¬ (l ++ dotTail ls).length < 1 := by
    cases l with
    | nil => exact absurd rfl hlne
    | cons a t => simp
  simp [h63, hcons, hrest, hstrlen, dotted]
  exact fun hl => absurd hl hlne

/-- C3 witness: the amended round-trip at the concrete name `ex.c`. -/
theorem c3_witness :
    ([[101, 120], [99]] : List (List Nat)) ≠ [] ∧
    readQName (writeQName (dotted [[101, 120], [99]])) =
      .ok (dotted [[101, 120], [99]], [0]) :=
  ⟨by decide, c3_name_roundtrip_amended [[101, 120], [99]]
    (by decide) (by decide)⟩

/-- C4 counterexample: a label sequence whose SECOND length byte is 64
(`01 'a' 40 'b'×64 00`) decodes successfully — no `InvalidLabelLength`
failure, contradicting the claim that any length byte over 63 fails. -/
theorem c4_counterexample :
    readQName ([1, 97, 64] ++ List.replicate 64 98 ++ [0]) =
      .ok ([97, 46] ++ List.replicate 64 98, [0]) ∧
    readQName ([1, 97, 64] ++ List.replicate 64 98 ++ [0]) ≠
      .error .invalidQNameLength := by
  constructor
  · rfl
  · decide

/-- C4 amended: only the FIRST length byte is validated: any buffer whose
first byte exceeds 63 fails with the invalid-label-length panic; a first
length byte of exactly 63 followed by 63 label bytes and the terminator
decodes successfully; a later length byte of 64 is accepted as an
ordinary length (no validation). -/
theorem c4_only_first_length_checked :
    (∀ (c : Nat) (rest : Bytes), 63 < c →
      readQName (c :: rest) = .error .invalidQNameLength) ∧
    readQName (63 :: (List.replicate 63 97 ++ [0])) =
      .ok (List.replicate 63 97, [0]) ∧
    readQName ([1, 97, 64] ++ List.replicate 64 98 ++ [0]) =
      .ok ([97, 46] ++ List.replicate 64 98, [0]) := by
  refine ⟨fun c rest h => ?_, rfl, rfl⟩
  rw [readQName.eq_def]
  simp [h]

/-- C4 witness: the first-length-byte failure instantiated at the
one-byte buffer `[64]`. -/
theorem c4_witness :
    63 < 64 ∧ readQName [64] = .error .invalidQNameLength :=
  ⟨by decide, c4_only_first_length_checked.1 64 [] (by decide)⟩

/-- C5 counterexample: decoding a 10-byte buffer as a header fails with
the out-of-range abort of `read16` (a Go slice-bounds panic), not with a
`BufferTooShort` error value — the code never constructs such an error. -/
theorem c5_counterexample :
    NewHeader (List.replicate 10 0) = .error .outOfRange ∧
    (Except.error DnsError.outOfRange :
      Except DnsError (header × Bytes)) ≠ .error .bufferTooShort :=
  ⟨rfl, by decide⟩

/-- C5 amended: for every buffer shorter than 12 bytes `NewHeader` aborts
with the slice out-of-range panic (not a `BufferTooShort` error value),
and for every buffer of at least 12 bytes it succeeds, consuming exactly
the first 12 bytes. -/
theorem c5_short_header_aborts :
    (∀ b : Bytes, b.length < 12 → NewHeader b = .error .outOfRange) ∧
    (∀ b : Bytes, 12 ≤ b.length →
      ∃ h : header, NewHeader b = .ok (h, b.drop 12)) := by
  constructor
  · intro b hb
    rcases b with _ | ⟨b0, b⟩; · rfl
    rcases b with _ | ⟨b1, b⟩; · rfl
    rcases b with _ | ⟨b2, b⟩; · rfl
    rcases b with _ | ⟨b3, b⟩; · rfl
    rcases b with _ | ⟨b4, b⟩; · rfl
    rcases b with _ | ⟨b5, b⟩; · rfl
    rcases b with _ | ⟨b6, b⟩; · rfl
    rcases b with _ | ⟨b7, b⟩; · rfl
    rcases b with _ | ⟨b8, b⟩; · rfl
    rcases b with _ | ⟨b9, b⟩; · rfl
    rcases b with _ | ⟨b10, b⟩; · rfl
    rcases b with _ | ⟨b11, b⟩; · rfl
    simp at hb; omega
  · intro b hb
    rcases b with _ | ⟨b0, b⟩; · simp at hb
    rcases b with _ | ⟨b1, b⟩; · simp at hb
    rcases b with _ | ⟨b2, b⟩; · simp at hb
    rcases b with _ | ⟨b3, b⟩; · simp at hb
    rcases b with _ | ⟨b4, b⟩; · simp at hb
    rcases b with _ | ⟨b5, b⟩; · simp at hb
    rcases b with _ | ⟨b6, b⟩; · simp at hb
    rcases b with _ | ⟨b7, b⟩; · simp at hb
    rcases b with _ | ⟨b8, b⟩; · simp at hb
    rcases b with _ | ⟨b9, b⟩; · simp at hb
    rcases b with _ | ⟨b10, b⟩; · simp at hb
    rcases b with _ | ⟨b11, b⟩; · simp at hb
    exact ⟨_, rfl⟩

/-- C5 witness: both halves of the amended statement at concrete
buffers (11 bytes fails with the out-of-range abort; 12 bytes succeed). -/
theorem c5_witness :
    (List.replicate 11 0).length < 12 ∧
    NewHeader (List.replicate 11 0) = .error .outOfRange ∧
    12 ≤ (List.replicate 12 5).length ∧
    ∃ h : header,
      NewHeader (List.replicate 12 5) = .ok (h, (List.replicate 12 5).drop 12) :=
  ⟨by decide, c5_short_header_aborts.1 _ (by decide),
   by decide, c5_short_header_aborts.2 _ (by decide)⟩

/-- C6: the question decoder does NOT read qtype/qclass from the bytes
immediately following the encoded name: on the buffer
`02 'a' 'b' 00` followed by qtype 1, qclass 1 and twelve zero bytes, it
returns qtype 0 and qclass 0, because `read16(b[12:])` skips twelve
bytes of the remainder (which still starts at the name terminator), so
the two fields are taken from padding eleven bytes past the wire
position of qtype. -/
theorem c6_question_reads_wrong_offset :
    newQuestion ([2, 97, 98, 0, 0, 1, 0, 1] ++ List.replicate 12 0) =
      .ok ({ qname := [97, 98], qtype := 0, qclass := 0 }, [0]) ∧
    ({ qname := [97, 98], qtype := 0, qclass := 0 } : question).qtype ≠ 1 :=
  ⟨rfl, by decide⟩

/-- C7: `newResourceRecord` reads no name — on any buffer starting with
14 bytes it returns exactly rtype(16), class(16), ttl(32), rdlength(16),
rdata(32), big-endian, in that order, consuming exactly 14 bytes and an
empty name; and whenever `NewMessage` succeeds, the resource record's
name equals the question's decoded name. -/
theorem c7_resource_record_fixed_fields :
    (∀ t0 t1 c0 c1 a0 a1 a2 a3 n0 n1 d0 d1 d2 d3 : Nat, ∀ rest : Bytes,
      newResourceRecord (t0 :: t1 :: c0 :: c1 :: a0 :: a1 :: a2 :: a3 ::
          n0 :: n1 :: d0 :: d1 :: d2 :: d3 :: rest) =
        .ok ({ name := [],
               rtype := t0 * 256 + t1,
               rclass := c0 * 256 + c1,
               ttl := a0 * 16777216 + a1 * 65536 + a2 * 256 + a3,
               length := n0 * 256 + n1,
               rdata := d0 * 16777216 + d1 * 65536 + d2 * 256 + d3 }, rest)) ∧
    (∀ (b : Bytes) (m : Message),
      NewMessage b = .ok m → m.rr.name = m.q.qname) := by
  constructor
  · intro t0 t1 c0 c1 a0 a1 a2 a3 n0 n1 d0 d1 d2 d3 rest
    rfl
  · intro b m h
    unfold NewMessage at h
    split at h
    · exact absurd h (by simp)
    · split at h
      · exact absurd h (by simp)
      · split at h
        · exact absurd h (by simp)
        · injection h with h
          subst h
          rfl

/-- C7 witness: both halves at a concrete buffer — a 45-byte message
whose question name is `ab`; the decoded record's name equals the
question's name. -/
theorem c7_witness :
    NewMessage (List.replicate 12 0 ++ [2, 97, 98] ++ List.replicate 30 0) =
      .ok { hdr := ⟨0, 0, 0, 0, 0, 0, 0, 0, 0, 0, 0, 0, 0⟩,
            q := ⟨[97, 98], 0, 0⟩,
            rr := ⟨[97, 98], 0, 0, 0, 0, 0⟩ } ∧
    ({ hdr := ⟨0, 0, 0, 0, 0, 0, 0, 0, 0, 0, 0, 0, 0⟩,
       q := ⟨[97, 98], 0, 0⟩,
       rr := ⟨[97, 98], 0, 0, 0, 0, 0⟩ } : Message).rr.name =
      ({ hdr := ⟨0, 0, 0, 0, 0, 0, 0, 0, 0, 0, 0, 0, 0⟩,
         q := ⟨[97, 98], 0, 0⟩,
         rr := ⟨[97, 98], 0, 0, 0, 0, 0⟩ } : Message).q.qname :=
  ⟨rfl, c7_resource_record_fixed_fields.2
    (List.replicate 12 0 ++ [2, 97, 98] ++ List.replicate 30 0) _ (by rfl)⟩

/-- C8 counterexample: encoding the record with name `a`, rtype 258,
class 772, ttl 0x01020304, rdlength 5, rdata 6 does not put the name
bytes first — the output is the fixed fields followed by the name. -/
theorem c8_counterexample :
    resourceRecord.Write ⟨[97], 258, 772, 16909060, 5, 6⟩ ≠
      writeQName [97] ++
        [1, 2, 3, 4, 1, 2, 3, 4, 0, 5, 0, 0, 0, 6] := by decide

/-- C8 amended: `resourceRecord.Write` emits the fourteen fixed-field
bytes (rtype, class, ttl, rdlength, rdata, big-endian) FIRST and appends
the encoded name bytes after them (`r = append(r, bb...)`). -/
theorem c8_fixed_fields_before_name (rr : resourceRecord) :
    resourceRecord.Write rr =
      [ (rr.rtype >>> 8) % 256,
        rr.rtype &&& 0xff,
        (rr.rclass >>> 8) % 256,
        rr.rclass &&& 0xff,
        ((rr.ttl >>> 24) &&& 0xff),
        ((rr.ttl >>> 16) &&& 0xff),
        ((rr.ttl >>> 8) &&& 0xff),
        ((rr.ttl >>> 0) &&& 0xff),
        (rr.length >>> 8) % 256,
        rr.length &&& 0xff,
        ((rr.rdata >>> 24) &&& 0xff),
        ((rr.rdata >>> 16) &&& 0xff),
        ((rr.rdata >>> 8) &&& 0xff),
        ((rr.rdata >>> 0) &&& 0xff) ] ++ writeQName rr.name := rfl

/-- C9 counterexample: errors and data are silently dropped on the encode
side — encoding a perfectly valid question yields NO bytes at all, and
encoding a record whose name has a 64-byte label yields the fourteen
fixed bytes with no name and no error (`writeQName` returned nil). -/
theorem c9_counterexample :
    question.Write ⟨[97], 1, 1⟩ = [] ∧
    resourceRecord.Write ⟨List.replicate 64 97, 1, 1, 1, 1, 1⟩ =
      [0, 1, 0, 1, 0, 0, 0, 1, 0, 1, 0, 0, 0, 1] :=
  ⟨rfl, by decide⟩

/-- C9 amended: decode failures abort by panic (modelled as the
`invalidQNameLength` / `outOfRange` error results) and no partial
`Message` is produced, but encode-side failures are silent: every
question encodes to the empty byte string (`question.Write` returns
nil), and a name with an over-long label encodes to the empty byte
string instead of a `LabelTooLong` error. -/
theorem c9_encode_errors_silent :
    (∀ q : question, question.Write q = []) ∧
    writeQName (List.replicate 64 97) = [] :=
  ⟨fun _ => rfl, by decide⟩

/-- C10: `header.Write` does not depend on the `qr` and `z` fields: two
headers that differ only there encode to identical 12-byte outputs. -/
theorem c10_write_ignores_qr_z (h : header) (q1 z1 q2 z2 : Nat) :
    header.Write { h with qr := q1, z := z1 } =
      header.Write { h with qr := q2, z := z2 } := rfl
